import Mathlib

/-!
Verification of the FieldView interpolation and rendering core.

The development shallowly embeds the Python sources of the repository:
  - fieldview/utils/interpolation.py  (BoundaryPointGenerator, FastRBFInterpolator)
  - fieldview/layers/heatmap_layer.py (HeatmapLayer: boundary setting, render guard,
    adaptive grid-size controller)
  - fieldview/layers/data_layer.py    (DataLayer.get_valid_data)
  - fieldview/core/data_container.py  (DataContainer mutations)
and, where a component is referenced by the tests but absent from the sources
(fieldview/utils/grid_manager.py, HeatmapLayer.set_color_range), a model taken
from the specification text.

Numeric modelling: machine floats are embedded as exact rationals; Euclidean
lengths and distances, which the Python code obtains from numpy or a KD tree,
are passed as parameters tied to the squared Euclidean distance by an explicit
hypothesis, since square roots are irrational in general.
-/

namespace FieldView

/-- Points of the plane with rational coordinates, standing for pairs of float64. -/
abbrev Q2 : Type := ℚ × ℚ

/-- Squared Euclidean distance between two plane points. -/
def sqDist (p q : Q2) : ℚ := (q.1 - p.1) ^ 2 + (q.2 - p.2) ^ 2

/-- Convex interpolation between two points: p1 + t * (p2 - p1), as computed in
BoundaryPointGenerator._generate_points (interpolation.py lines 98-101). -/
def lerp2 (p1 p2 : Q2) (t : ℚ) : Q2 :=
  (p1.1 + t * (p2.1 - p1.1), p1.2 + t * (p2.2 - p1.2))

/-- Vertex-list closing from interpolation.py lines 83-88: the walked vertex list
always ends with the first vertex.  QPolygonF.isClosed holds when the first and
last vertices are equal, in which case the list is left alone; otherwise the
first vertex is appended. -/
def closeLoop (ps : List Q2) : List Q2 :=
  match ps with
  | [] => []
  | p :: _ => if ps.getLast? = some p then ps else ps ++ [p]

/-- Edges walked by the generator: consecutive pairs of the closed vertex list
(interpolation.py line 90). -/
def polygonEdges (ps : List Q2) : List (Q2 × Q2) :=
  (closeLoop ps).zip (closeLoop ps).tail

/-- Number of sample points of one edge (interpolation.py lines 95-96):
n_segments = max(1, int(np.ceil(segment_len / target_segment_length))). -/
def nSegments (len tsl : ℚ) : ℕ := max 1 (⌈len / tsl⌉).toNat

/-- Sample points of one edge (interpolation.py lines 98-101): for j below
n_segments, the point p1 + (j / n_segments) * (p2 - p1); the final point of the
span (t = 1) is excluded. -/
def edgePoints (p1 p2 : Q2) (n : ℕ) : List Q2 :=
  (List.range n).map (fun (j : ℕ) => lerp2 p1 p2 ((j : ℚ) / (n : ℚ)))

/-- Boundary point generation (interpolation.py lines 71-103) at a fixed target
segment length tsl.  The Euclidean edge length, computed by numpy in the source,
is supplied by the parameter edgeLen; theorems tie it to sqDist. -/
def generate_points (poly : List Q2) (edgeLen : Q2 → Q2 → ℚ) (tsl : ℚ) : List Q2 :=
  (polygonEdges poly).flatMap (fun e => edgePoints e.1 e.2 (nSegments (edgeLen e.1 e.2) tsl))

/-- Membership of the half-open segment from p1 to p2. -/
def onSegment (p1 p2 pt : Q2) : Prop := ∃ t : ℚ, 0 ≤ t ∧ t < 1 ∧ pt = lerp2 p1 p2 t

/-- A point lies on the perimeter of the (implicitly closed) polygon. -/
def onPerimeter (poly : List Q2) (pt : Q2) : Prop :=
  ∃ e ∈ polygonEdges poly, onSegment e.1 e.2 pt

/-- Distance clamp constant of BoundaryPointGenerator.fit (interpolation.py
line 39): distances are clamped below at 1e-9. -/
def idwEps : ℚ := 1 / 10 ^ 9

/-- IDW weight computation of BoundaryPointGenerator.fit (interpolation.py lines
38-44) for one boundary point, given its two nearest-neighbour distances d1, d2
as returned by the KD tree query: clamp each distance below at 1e-9, invert,
and normalise the two inverses to sum to one. -/
def idwWeights (d1 d2 : ℚ) : ℚ × ℚ :=
  ((1 / max d1 idwEps) / (1 / max d1 idwEps + 1 / max d2 idwEps),
   (1 / max d2 idwEps) / (1 / max d1 idwEps + 1 / max d2 idwEps))

/-- Weighted gather of BoundaryPointGenerator.transform (interpolation.py lines
56-62) for one boundary point: the boundary value is the weight-combination of
the two neighbour values. -/
def idwTransform (w : ℚ × ℚ) (v1 v2 : ℚ) : ℚ := w.1 * v1 + w.2 * v2

/-- State of FastRBFInterpolator (interpolation.py lines 105-152): after a
successful fit the operator matrix of shape (grid points) x (source points) is
stored; a failed or absent fit leaves the interpolator unfitted. -/
structure FastRBFInterpolator (G P : ℕ) where
  matrix : Option (Matrix (Fin G) (Fin P) ℚ)

/-- FastRBFInterpolator.predict (interpolation.py lines 154-165): when unfitted
the result is none, otherwise the single dense matrix-vector product of the
stored operator matrix with the value vector. -/
def FastRBFInterpolator.predict {G P : ℕ} (self : FastRBFInterpolator G P)
    (values : Fin P → ℚ) : Option (Fin G → ℚ) :=
  self.matrix.map (fun M => M.mulVec values)

/-- Operator matrix computed by FastRBFInterpolator.fit (interpolation.py lines
134-148).  The scipy RBF pipeline at fixed geometry solves the kernel system
A w = y for the coefficients and evaluates B w on the grid; the fit passes the
identity matrix as y, so the columns W of the solved system satisfy A * W = 1
and the stored operator matrix is B * W. -/
def rbfOperatorMatrix {G P : ℕ} (B : Matrix (Fin G) (Fin P) ℚ)
    (W : Matrix (Fin P) (Fin P) ℚ) : Matrix (Fin G) (Fin P) ℚ :=
  B * W

/-- Modelled from the spec: the direct (non-cached) thin-plate-spline RBF
evaluation of a value vector, per spec section 4.2 — solve the kernel system
A w = values once for this value vector, then evaluate B w at the grid points. -/
def directRBFEval {G P : ℕ} (B : Matrix (Fin G) (Fin P) ℚ)
    (w : Fin P → ℚ) : Fin G → ℚ :=
  B.mulVec w

/-- Demonstration polygon for concrete instantiations: an open right triangle
whose three edges (after loop closing) have the rational lengths 3, 4 and 5. -/
def demoPoly : List Q2 := [(0, 0), (3, 0), (3, 4)]

/-- Exact Euclidean edge lengths of the demonstration polygon. -/
def demoLen : Q2 → Q2 → ℚ := fun p _ =>
  if p = ((0 : ℚ), (0 : ℚ)) then 3 else if p = ((3 : ℚ), (0 : ℚ)) then 4 else 5

theorem boundary_edge_count_and_perimeter
    (poly : List Q2) (edgeLen : Q2 → Q2 → ℚ) (tsl : ℚ) (htsl : 0 < tsl)
    (hlen : ∀ e ∈ polygonEdges poly, 0 ≤ edgeLen e.1 e.2 ∧
      edgeLen e.1 e.2 * edgeLen e.1 e.2 = sqDist e.1 e.2) :
    (∀ e ∈ polygonEdges poly, ∀ L : ℚ, 0 ≤ L → L * L = sqDist e.1 e.2 →
      (edgePoints e.1 e.2 (nSegments (edgeLen e.1 e.2) tsl)).length =
        max 1 (⌈L / tsl⌉).toNat) ∧
    (∀ pt ∈ generate_points poly edgeLen tsl, onPerimeter poly pt) := by
  constructor
  · intro e he L hL0 hLsq
    obtain ⟨h10, h1sq⟩ := hlen e he
    have hsq : L * L = edgeLen e.1 e.2 * edgeLen e.1 e.2 := by rw [hLsq, h1sq]
    have h0 : (L - edgeLen e.1 e.2) * (L + edgeLen e.1 e.2) = 0 := by
      linear_combination hsq
    have hLeq : L = edgeLen e.1 e.2 := by
      rcases mul_eq_zero.mp h0 with h1 | h1
      · linarith
      · linarith
    rw [hLeq]
    unfold edgePoints nSegments
    rw [List.length_map, List.length_range]
  · intro pt hpt
    obtain ⟨e, he, hmem⟩ := List.mem_flatMap.mp hpt
    refine ⟨e, he, ?_⟩
    simp only [edgePoints, List.mem_map, List.mem_range] at hmem
    obtain ⟨j, hjn, hpt'⟩ := hmem
    have hn : 0 < nSegments (edgeLen e.1 e.2) tsl :=
      lt_of_lt_of_le Nat.zero_lt_one (le_max_left _ _)
    have hnq : (0 : ℚ) < (nSegments (edgeLen e.1 e.2) tsl : ℚ) := by exact_mod_cast hn
    refine ⟨(j : ℚ) / (nSegments (edgeLen e.1 e.2) tsl : ℚ), ?_, ?_, hpt'.symm⟩
    · exact div_nonneg (by positivity) (le_of_lt hnq)
    · exact (div_lt_one hnq).mpr (by exact_mod_cast hjn)

theorem boundary_edge_count_and_perimeter_witness :
    (edgePoints ((0 : ℚ), (0 : ℚ)) ((3 : ℚ), (0 : ℚ))
        (nSegments (demoLen (0, 0) (3, 0)) 2)).length = max 1 (⌈(3 : ℚ) / 2⌉).toNat ∧
    onPerimeter demoPoly ((0 : ℚ), (0 : ℚ)) := by
  have h := boundary_edge_count_and_perimeter demoPoly demoLen 2 (by norm_num)
    (by simp [polygonEdges, closeLoop, demoPoly, demoLen, sqDist]; norm_num)
  refine ⟨h.1 (((0 : ℚ), (0 : ℚ)), ((3 : ℚ), (0 : ℚ)))
      (by simp [polygonEdges, closeLoop, demoPoly]) 3 (by norm_num)
      (by simp [sqDist]; norm_num), ?_⟩
  refine h.2 ((0 : ℚ), (0 : ℚ)) ?_
  simp [generate_points, polygonEdges, closeLoop, demoPoly, demoLen, edgePoints,
    nSegments, lerp2]

theorem idw_full_weight_counterexample :
    ¬ ((idwWeights 0 1).1 = 1 ∧ (idwWeights 0 1).2 = 0) := by
  have h1 : (idwWeights 0 1).1 = 10 ^ 9 / (10 ^ 9 + 1) := by
    simp [idwWeights, idwEps]
    norm_num
  intro h
  rw [h1] at h
  norm_num at h

theorem idw_weights_clamped_and_normalised (d1 d2 : ℚ)
    (h1 : 0 ≤ d1) (h2 : d1 < idwEps) (h3 : idwEps ≤ d2) :
    (idwWeights d1 d2).1 + (idwWeights d1 d2).2 = 1 ∧
    (idwWeights d1 d2).1 = (10 ^ 9 * d2) / (10 ^ 9 * d2 + 1) ∧
    (idwWeights d1 d2).2 = 1 / (10 ^ 9 * d2 + 1) ∧
    (idwWeights d1 d2).1 ≠ 1 := by
  have heps : (0 : ℚ) < idwEps := by norm_num [idwEps]
  have hd2 : (0 : ℚ) < d2 := lt_of_lt_of_le heps h3
  have hmax1 : max d1 idwEps = idwEps := max_eq_right (le_of_lt h2)
  have hmax2 : max d2 idwEps = d2 := max_eq_left h3
  have hden : (0 : ℚ) < 10 ^ 9 * d2 + 1 := by positivity
  have hkey : (1 : ℚ) / idwEps = 10 ^ 9 := by norm_num [idwEps]
  have hsum : (0 : ℚ) < 10 ^ 9 + 1 / d2 := by positivity
  have hw1 : (idwWeights d1 d2).1 = (10 ^ 9 * d2) / (10 ^ 9 * d2 + 1) := by
    show (1 / max d1 idwEps) / (1 / max d1 idwEps + 1 / max d2 idwEps) = _
    rw [hmax1, hmax2, hkey]
    rw [div_eq_div_iff (ne_of_gt hsum) (ne_of_gt hden)]
    field_simp
    ring
  have hw2 : (idwWeights d1 d2).2 = 1 / (10 ^ 9 * d2 + 1) := by
    show (1 / max d2 idwEps) / (1 / max d1 idwEps + 1 / max d2 idwEps) = _
    rw [hmax1, hmax2, hkey]
    rw [div_eq_div_iff (ne_of_gt hsum) (ne_of_gt hden)]
    field_simp
  refine ⟨?_, hw1, hw2, ?_⟩
  · rw [hw1, hw2]
    rw [div_add_div_same, div_eq_one_iff_eq (ne_of_gt hden)]
  · rw [hw1]
    intro hcontra
    rw [div_eq_one_iff_eq (ne_of_gt hden)] at hcontra
    linarith

theorem idw_weights_clamped_and_normalised_witness :
    (0 : ℚ) ≤ 0 ∧ (0 : ℚ) < idwEps ∧ idwEps ≤ 1 ∧
    ((idwWeights 0 1).1 + (idwWeights 0 1).2 = 1 ∧
     (idwWeights 0 1).1 = (10 ^ 9 * 1) / (10 ^ 9 * 1 + 1) ∧
     (idwWeights 0 1).2 = 1 / (10 ^ 9 * 1 + 1) ∧
     (idwWeights 0 1).1 ≠ 1) :=
  ⟨le_refl 0, by norm_num [idwEps], by norm_num [idwEps],
   idw_weights_clamped_and_normalised 0 1 (le_refl 0)
     (by norm_num [idwEps]) (by norm_num [idwEps])⟩

theorem predict_is_linear_operator {G P : ℕ} (M : Matrix (Fin G) (Fin P) ℚ)
    (u v : Fin P → ℚ) (a b : ℚ) :
    (FastRBFInterpolator.mk (some M)).predict (a • u + b • v) =
      some (a • M.mulVec u + b • M.mulVec v) ∧
    (FastRBFInterpolator.mk (some M)).predict u = some (M.mulVec u) ∧
    (FastRBFInterpolator.mk (G := G) (P := P) none).predict u = none := by
  refine ⟨?_, rfl, rfl⟩
  simp [FastRBFInterpolator.predict, Matrix.mulVec_add, Matrix.mulVec_smul]

theorem operator_matrix_refines_direct_eval {G P : ℕ}
    (A W : Matrix (Fin P) (Fin P) ℚ) (B : Matrix (Fin G) (Fin P) ℚ)
    (w v : Fin P → ℚ) (hP : 10 ≤ P)
    (hW : A * W = 1) (hw : A.mulVec w = v) :
    (FastRBFInterpolator.mk (some (rbfOperatorMatrix B W))).predict v =
      some ((rbfOperatorMatrix B W).mulVec v) ∧
    (rbfOperatorMatrix B W).mulVec v = directRBFEval B w := by
  refine ⟨rfl, ?_⟩
  have hWA : W * A = 1 := Matrix.mul_eq_one_comm.mp hW
  have h1 : W.mulVec v = w := by
    rw [← hw, Matrix.mulVec_mulVec, hWA, Matrix.one_mulVec]
  rw [rbfOperatorMatrix, ← Matrix.mulVec_mulVec, h1, directRBFEval]

theorem operator_matrix_refines_direct_eval_witness :
    10 ≤ 10 ∧
    ((FastRBFInterpolator.mk (some (rbfOperatorMatrix (0 : Matrix (Fin 1) (Fin 10) ℚ)
        (1 : Matrix (Fin 10) (Fin 10) ℚ)))).predict 0 =
      some ((rbfOperatorMatrix (0 : Matrix (Fin 1) (Fin 10) ℚ)
        (1 : Matrix (Fin 10) (Fin 10) ℚ)).mulVec 0) ∧
    (rbfOperatorMatrix (0 : Matrix (Fin 1) (Fin 10) ℚ)
        (1 : Matrix (Fin 10) (Fin 10) ℚ)).mulVec 0 =
      directRBFEval (0 : Matrix (Fin 1) (Fin 10) ℚ) 0) :=
  ⟨le_refl 10,
   operator_matrix_refines_direct_eval 1 1 0 0 0 (le_refl 10)
     (Matrix.one_mul 1) (Matrix.one_mulVec 0)⟩

/-- Ratio clamp of the adaptive controller (heatmap_layer.py lines 268-269):
ratio = target / duration, clamped to the interval from 0.5 to 2.0. -/
def ratioClamp (target duration : ℚ) : ℚ := max (1 / 2) (min 2 (target / duration))

/-- Fast-pass grid size (heatmap_layer.py line 156):
low_res_size = max(10, int(grid_size / 1.6)).  The float literal 1.6 is the
rational 8/5, and int() on a nonnegative value is the floor. -/
def fastGridSize (g : ℤ) : ℤ := max 10 ⌊(g : ℚ) / (8 / 5)⌋

/-- Adaptive grid-size update (heatmap_layer.py lines 270-273) after a render
that used gridSize while the adaptive size was g.  The parameter s stands for
np.sqrt(ratio); alpha = 0.3:
  new_grid_size = max(30, min(500, int(gridSize * s)))
  next_size = int(alpha * new_grid_size + (1 - alpha) * g). -/
def adaptiveUpdate (s : ℚ) (gridSize g : ℤ) : ℤ :=
  ⌊(3 / 10) * ((max 30 (min 500 ⌊(gridSize : ℚ) * s⌋) : ℤ) : ℚ)
    + (1 - 3 / 10) * (g : ℚ)⌋

theorem adaptive_grid_size_bounded
    (target duration s : ℚ) (g gridSize : ℤ)
    (htarget : 0 < target) (hduration : 0 < duration)
    (hs0 : 0 ≤ s) (hs2 : s * s ≤ ratioClamp target duration)
    (hg1 : 30 ≤ g) (hg2 : g ≤ 500)
    (hgrid : gridSize = g ∨ gridSize = fastGridSize g) :
    30 ≤ adaptiveUpdate s gridSize g ∧ adaptiveUpdate s gridSize g ≤ 500 ∧
    adaptiveUpdate s gridSize g ≤ 2 * g ∧ g ≤ 2 * adaptiveUpdate s gridSize g := by
  have hrc : ratioClamp target duration ≤ 2 :=
    max_le (by norm_num) (min_le_left _ _)
  have hs32 : s ≤ 3 / 2 := by
    by_contra hcon
    push_neg at hcon
    have h94 : (9 : ℚ) / 4 < s * s := by nlinarith
    linarith
  have hgz : (0 : ℤ) ≤ g := by linarith
  have hgrid_le : gridSize ≤ g := by
    rcases hgrid with h | h
    · rw [h]
    · rw [h, fastGridSize]
      refine max_le (by linarith) ?_
      have hgq0 : (0 : ℚ) ≤ (g : ℚ) := by exact_mod_cast hgz
      have : ((g : ℚ) / (8 / 5)) ≤ ((g : ℚ)) := by
        rw [div_le_iff₀ (by norm_num)]
        nlinarith
      calc ⌊(g : ℚ) / (8 / 5)⌋ ≤ ⌊((g : ℚ))⌋ := Int.floor_le_floor this
        _ = g := Int.floor_intCast g
  have hgrid_nonneg : (0 : ℤ) ≤ gridSize := by
    rcases hgrid with h | h
    · rw [h]; exact hgz
    · rw [h, fastGridSize]; exact le_trans (by norm_num) (le_max_left _ _)
  set x : ℤ := ⌊(gridSize : ℚ) * s⌋ with hx
  set N : ℤ := max 30 (min 500 x) with hN
  have hN30 : (30 : ℤ) ≤ N := le_max_left _ _
  have hN500 : N ≤ 500 := max_le (by norm_num) (min_le_left _ _)
  have hNle : (N : ℚ) ≤ (3 / 2) * (g : ℚ) := by
    have hxle : (x : ℚ) ≤ (3 / 2) * (g : ℚ) := by
      have h1 : (x : ℚ) ≤ (gridSize : ℚ) * s := Int.floor_le _
      have h2 : (gridSize : ℚ) * s ≤ (g : ℚ) * s := by
        have : (gridSize : ℚ) ≤ (g : ℚ) := by exact_mod_cast hgrid_le
        nlinarith
      have h3 : (g : ℚ) * s ≤ (g : ℚ) * (3 / 2) := by
        have : (0 : ℚ) ≤ (g : ℚ) := by exact_mod_cast hgz
        nlinarith
      linarith
    have hcast : (N : ℚ) = max 30 (min 500 (x : ℚ)) := by
      rw [hN]
      push_cast
      rfl
    rw [hcast]
    refine max_le ?_ ?_
    · have : (30 : ℚ) ≤ (3 / 2) * (g : ℚ) := by
        have : (30 : ℚ) ≤ (g : ℚ) := by exact_mod_cast hg1
        linarith
      exact this
    · exact le_trans (min_le_right _ _) hxle
  have hNq : (30 : ℚ) ≤ (N : ℚ) := by exact_mod_cast hN30
  have hNq5 : (N : ℚ) ≤ 500 := by exact_mod_cast hN500
  have hgq : (30 : ℚ) ≤ (g : ℚ) := by exact_mod_cast hg1
  have hgq5 : (g : ℚ) ≤ 500 := by exact_mod_cast hg2
  set e : ℚ := (3 / 10) * (N : ℚ) + (1 - 3 / 10) * (g : ℚ) with he
  have hu : adaptiveUpdate s gridSize g = ⌊e⌋ := by
    rw [adaptiveUpdate, he, hN, hx]
  have hfloor_le : (⌊e⌋ : ℚ) ≤ e := Int.floor_le e
  have hfloor_gt : e - 1 < (⌊e⌋ : ℚ) := Int.sub_one_lt_floor e
  clear_value e N x
  refine ⟨?_, ?_, ?_, ?_⟩
  · rw [hu]
    refine Int.le_floor.mpr ?_
    push_cast
    rw [he]
    linarith
  · rw [hu]
    have : e ≤ 500 := by rw [he]; linarith
    have h5 : (⌊e⌋ : ℚ) ≤ 500 := le_trans hfloor_le this
    exact_mod_cast h5
  · rw [hu]
    have : e ≤ 2 * (g : ℚ) := by rw [he]; linarith
    have h2 : (⌊e⌋ : ℚ) ≤ 2 * (g : ℚ) := le_trans hfloor_le this
    exact_mod_cast h2
  · rw [hu]
    have h8 : 8 + (7 / 10) * (g : ℚ) ≤ e := by rw [he]; linarith
    have : (g : ℚ) < 2 * (⌊e⌋ : ℚ) := by linarith
    exact_mod_cast le_of_lt this

theorem adaptive_grid_size_bounded_witness :
    (0 : ℚ) < 1 ∧ (1 : ℚ) * 1 ≤ ratioClamp 1 1 ∧ (30 : ℤ) ≤ 50 ∧
    (30 ≤ adaptiveUpdate 1 50 50 ∧ adaptiveUpdate 1 50 50 ≤ 500 ∧
     adaptiveUpdate 1 50 50 ≤ 2 * 50 ∧ (50 : ℤ) ≤ 2 * adaptiveUpdate 1 50 50) :=
  ⟨by norm_num, by norm_num [ratioClamp], by norm_num,
   adaptive_grid_size_bounded 1 1 1 50 50 (by norm_num) (by norm_num)
     (by norm_num) (by norm_num [ratioClamp]) (by norm_num) (by norm_num)
     (Or.inl rfl)⟩

/-- State of DataContainer (data_container.py lines 11-14): the parallel point
and value arrays.  This revision of the source has no labels array. -/
structure DataContainerState where
  points : List Q2
  values : List ℚ
deriving DecidableEq

/-- Length consistency of the parallel arrays. -/
def consistent (st : DataContainerState) : Prop :=
  st.points.length = st.values.length

/-- DataContainer.set_data (data_container.py lines 24-44).  The Nx2 and 1-D
shape checks are enforced by the embedding types; the length check raises
ValueError before any field is assigned, so an error leaves the state
unchanged.  The natural number counts dataChanged emissions. -/
def set_data (st : DataContainerState) (ps : List Q2) (vs : List ℚ) :
    Except String (DataContainerState × ℕ) :=
  if ps.length ≠ vs.length then .error "ValueError"
  else .ok (⟨ps, vs⟩, 1)

/-- DataContainer.add_points (data_container.py lines 46-61): an empty input
returns without emitting; an empty container delegates to set_data (which
validates); otherwise the rows are stacked with NO length validation. -/
def add_points (st : DataContainerState) (ps : List Q2) (vs : List ℚ) :
    Except String (DataContainerState × ℕ) :=
  if ps.length = 0 then .ok (st, 0)
  else if st.points.length = 0 then set_data st ps vs
  else .ok (⟨st.points ++ ps, st.values ++ vs⟩, 1)

/-- DataContainer.update_point (data_container.py lines 63-80): bounds check,
then optional value and point writes; emits once when anything was written. -/
def update_point (st : DataContainerState) (index : ℕ) (value : Option ℚ)
    (point : Option Q2) : Except String (DataContainerState × ℕ) :=
  if st.points.length ≤ index then .error "IndexError"
  else
    let st1 := match value with
      | some v => { st with values := st.values.set index v }
      | none => st
    let st2 := match point with
      | some p => { st1 with points := st1.points.set index p }
      | none => st1
    .ok (st2, if value.isSome || point.isSome then 1 else 0)

/-- Indexed pairing of a list, index first, starting at n. -/
def idxList {α : Type} : ℕ → List α → List (ℕ × α)
  | _, [] => []
  | n, a :: as => (n, a) :: idxList (n + 1) as

/-- Deletion of the rows whose index lies in the given index list, as performed
by np.delete for in-range indices (a boolean keep-mask over row positions). -/
def delete_at {α : Type} (l : List α) (indices : List ℕ) : List α :=
  ((idxList 0 l).filter (fun e => decide (e.1 ∉ indices))).map (fun e => e.2)

/-- DataContainer.remove_points (data_container.py lines 82-91): an empty index
list returns without emitting; otherwise both arrays lose the selected rows and
one emission fires.  Out-of-range indices, which np.delete rejects, are outside
the modelled domain. -/
def remove_points (st : DataContainerState) (indices : List ℕ) :
    Except String (DataContainerState × ℕ) :=
  if indices.length = 0 then .ok (st, 0)
  else .ok (⟨delete_at st.points indices, delete_at st.values indices⟩, 1)

/-- DataContainer.clear (data_container.py lines 93-99). -/
def clear (st : DataContainerState) : DataContainerState × ℕ :=
  (⟨[], []⟩, 1)

theorem add_points_length_mismatch_counterexample :
    set_data ⟨[], []⟩ [(0, 0)] [10] = .ok (⟨[(0, 0)], [10]⟩, 1) ∧
    add_points ⟨[(0, 0)], [10]⟩ [(1, 1)] [20, 30] =
      .ok (⟨[(0, 0), (1, 1)], [10, 20, 30]⟩, 1) ∧
    ¬ consistent ⟨[(0, 0), (1, 1)], [10, 20, 30]⟩ := by
  refine ⟨rfl, rfl, ?_⟩
  intro h
  simp [consistent] at h

theorem idxList_filter_length {α β : Type} (q : ℕ → Bool) (l1 : List α) :
    ∀ (n : ℕ) (l2 : List β), l1.length = l2.length →
    ((idxList n l1).filter (fun e => q e.1)).length =
    ((idxList n l2).filter (fun e => q e.1)).length := by
  induction l1 with
  | nil =>
    intro n l2 h
    rw [List.eq_nil_of_length_eq_zero h.symm]
    rfl
  | cons a as ih =>
    intro n l2 h
    cases l2 with
    | nil => simp at h
    | cons b bs =>
      simp only [idxList, List.filter]
      cases hq : q n
      · exact ih (n + 1) bs (by simpa using h)
      · simp only [List.length_cons]
        rw [ih (n + 1) bs (by simpa using h)]

theorem delete_at_length {α β : Type} (l1 : List α) (l2 : List β)
    (idxs : List ℕ) (h : l1.length = l2.length) :
    (delete_at l1 idxs).length = (delete_at l2 idxs).length := by
  unfold delete_at
  rw [List.length_map, List.length_map]
  exact idxList_filter_length (fun i => decide (i ∉ idxs)) l1 0 l2 h

theorem data_container_mutations_keep_consistency :
    (∀ (st : DataContainerState) (ps : List Q2) (vs : List ℚ),
      ps.length ≠ vs.length → set_data st ps vs = .error "ValueError") ∧
    (∀ (st : DataContainerState) (ps : List Q2) (vs : List ℚ),
      ps.length = vs.length →
      set_data st ps vs = .ok (⟨ps, vs⟩, 1) ∧ consistent ⟨ps, vs⟩) ∧
    (∀ (st : DataContainerState) (ps : List Q2) (vs : List ℚ),
      consistent st → ps.length = vs.length →
      ∃ st2, add_points st ps vs = .ok (st2, if ps.length = 0 then 0 else 1) ∧
        consistent st2) ∧
    (∀ (st : DataContainerState) (i : ℕ) (v : Option ℚ) (p : Option Q2),
      consistent st → i < st.points.length →
      ∃ st2, update_point st i v p =
          .ok (st2, if v.isSome || p.isSome then 1 else 0) ∧ consistent st2) ∧
    (∀ (st : DataContainerState) (idxs : List ℕ),
      consistent st →
      ∃ st2, remove_points st idxs =
          .ok (st2, if idxs.length = 0 then 0 else 1) ∧ consistent st2) ∧
    (∀ st : DataContainerState,
      clear st = (⟨[], []⟩, 1) ∧ consistent ⟨[], []⟩) := by
  refine ⟨?_, ?_, ?_, ?_, ?_, ?_⟩
  · intro st ps vs h
    simp [set_data, h]
  · intro st ps vs h
    exact ⟨by simp [set_data, h], h⟩
  · intro st ps vs hst h
    by_cases h0 : ps.length = 0
    · exact ⟨st, by simp [add_points, h0], hst⟩
    · by_cases hempty : st.points.length = 0
      · refine ⟨⟨ps, vs⟩, ?_, h⟩
        rw [add_points, if_neg h0, if_pos hempty, set_data,
          if_neg (not_not_intro h), if_neg h0]
      · refine ⟨⟨st.points ++ ps, st.values ++ vs⟩, ?_, ?_⟩
        · rw [add_points, if_neg h0, if_neg hempty, if_neg h0]
        · simp only [consistent, List.length_append]
          rw [hst, h]
  · intro st i v p hst hi
    have hcond : ¬ st.points.length ≤ i := by omega
    rcases v with _ | v <;> rcases p with _ | p
    · refine ⟨st, ?_, hst⟩
      rw [update_point, if_neg hcond]
    · refine ⟨{ st with points := st.points.set i p }, ?_, ?_⟩
      · rw [update_point, if_neg hcond]
      · simpa [consistent] using hst
    · refine ⟨{ st with values := st.values.set i v }, ?_, ?_⟩
      · rw [update_point, if_neg hcond]
      · simpa [consistent] using hst
    · refine ⟨⟨st.points.set i p, st.values.set i v⟩, ?_, ?_⟩
      · rw [update_point, if_neg hcond]
      · simpa [consistent] using hst
  · intro st idxs hst
    by_cases h0 : idxs.length = 0
    · exact ⟨st, by simp [remove_points, h0], hst⟩
    · refine ⟨⟨delete_at st.points idxs, delete_at st.values idxs⟩, ?_, ?_⟩
      · simp [remove_points, h0]
      · exact delete_at_length st.points st.values idxs hst
  · intro st
    exact ⟨rfl, rfl⟩

theorem data_container_mutations_keep_consistency_witness :
    set_data ⟨[], []⟩ [(0, 0)] [] = .error "ValueError" ∧
    (set_data ⟨[], []⟩ [(0, 0)] [10] = .ok (⟨[(0, 0)], [10]⟩, 1) ∧
      consistent ⟨[(0, 0)], [10]⟩) ∧
    (∃ st2, add_points ⟨[(0, 0)], [10]⟩ [(1, 1)] [20] =
        .ok (st2, if ([((1 : ℚ), (1 : ℚ))] : List Q2).length = 0 then 0 else 1) ∧
      consistent st2) ∧
    (∃ st2, update_point ⟨[(0, 0)], [10]⟩ 0 (some 5) none =
        .ok (st2, if (some (5 : ℚ)).isSome || (none : Option Q2).isSome
          then 1 else 0) ∧ consistent st2) ∧
    (∃ st2, remove_points ⟨[(0, 0)], [10]⟩ [0] =
        .ok (st2, if ([0] : List ℕ).length = 0 then 0 else 1) ∧ consistent st2) ∧
    (clear ⟨[(0, 0)], [10]⟩ = (⟨[], []⟩, 1) ∧ consistent ⟨[], []⟩) :=
  ⟨data_container_mutations_keep_consistency.1 ⟨[], []⟩ [(0, 0)] [] (by decide),
   data_container_mutations_keep_consistency.2.1 ⟨[], []⟩ [(0, 0)] [10] rfl,
   data_container_mutations_keep_consistency.2.2.1 ⟨[(0, 0)], [10]⟩ [(1, 1)] [20]
     rfl rfl,
   data_container_mutations_keep_consistency.2.2.2.1 ⟨[(0, 0)], [10]⟩ 0
     (some 5) none rfl (by decide),
   data_container_mutations_keep_consistency.2.2.2.2.1 ⟨[(0, 0)], [10]⟩ [0] rfl,
   data_container_mutations_keep_consistency.2.2.2.2.2 ⟨[(0, 0)], [10]⟩⟩

/-- Python values that DataLayer.get_valid_data returns inside its tuple. -/
inductive PyVal
  | pts (l : List Q2)
  | vals (l : List ℚ)

/-- DataLayer.get_valid_data (data_layer.py lines 51-64): returns the PAIR
(points, values) — a Python tuple of arity TWO — optionally masked by the
excluded index set.  The tuple is embedded as a list of dynamic values so that
its arity is observable. -/
def get_valid_data (st : DataContainerState) (excluded : List ℕ) : List PyVal :=
  if excluded.isEmpty then [.pts st.points, .vals st.values]
  else [.pts (delete_at st.points excluded), .vals (delete_at st.values excluded)]

/-- Python unpacking a, b, c = t of a tuple t: raises ValueError unless the
tuple has exactly three elements. -/
def unpack3 (t : List PyVal) : Except String (PyVal × PyVal × PyVal) :=
  match t with
  | [a, b, c] => .ok (a, b, c)
  | _ => .error "ValueError"

/-- HeatmapLayer._generate_heatmap up to its insufficient-data guard
(heatmap_layer.py lines 171-184): line 180 unpacks THREE values from
get_valid_data; after a successful unpack, fewer than 3 points or an empty
boundary clears the cached image to null (ok none) and returns without error;
otherwise the render proceeds (ok some). -/
def generate_heatmap (st : DataContainerState) (excluded : List ℕ)
    (boundaryEmpty : Bool) : Except String (Option Unit) :=
  match unpack3 (get_valid_data st excluded) with
  | .error e => .error e
  | .ok (pv, _, _) =>
    match pv with
    | .pts points =>
        if points.length < 3 || boundaryEmpty then .ok none else .ok (some ())
    | .vals _ => .error "TypeError"

theorem generate_heatmap_always_raises (st : DataContainerState)
    (excluded : List ℕ) (b : Bool) :
    generate_heatmap st excluded b = .error "ValueError" ∧
    generate_heatmap ⟨[(0, 0)], [10]⟩ [] false = .error "ValueError" := by
  constructor
  · cases h : excluded.isEmpty <;>
      simp [generate_heatmap, get_valid_data, h, unpack3]
  · rfl

/-- Boundary shape argument of HeatmapLayer.set_boundary_shape: QRectF,
QPainterPath and QPolygonF are the accepted representations; invalid stands for
every other Python object. -/
inductive QShape
  | polygonF (pts : List Q2)
  | rectF (x y w h : ℚ)
  | painterPath (pts : List Q2)
  | invalid

/-- Boundary-related state of HeatmapLayer (heatmap_layer.py lines 24-25). -/
structure HeatmapBoundaryState where
  auto_boundary : Bool
  boundary_shape : List Q2

/-- QPolygonF constructed from a QRectF: the closed five-vertex rectangle. -/
def rectToPolygon (x y w h : ℚ) : List Q2 :=
  [(x, y), (x + w, y), (x + w, y + h), (x, y + h), (x, y)]

/-- QPainterPath.toFillPolygon, abstracted as the vertex list of the path fill. -/
def toFillPolygon (pts : List Q2) : List Q2 := pts

/-- HeatmapLayer.set_boundary_shape (heatmap_layer.py lines 98-117): line 104
clears the auto-boundary flag BEFORE the isinstance checks; an unrecognized
shape then raises TypeError (line 113), leaving behind the already-cleared flag
and the untouched boundary polygon.  The error value carries the post-mutation
state, since the Python raise happens after the flag assignment. -/
def set_boundary_shape (st : HeatmapBoundaryState) (shape : QShape) :
    Except (HeatmapBoundaryState × String) HeatmapBoundaryState :=
  let st1 := { st with auto_boundary := false }
  match shape with
  | .rectF x y w h => .ok { st1 with boundary_shape := rectToPolygon x y w h }
  | .painterPath pts => .ok { st1 with boundary_shape := toFillPolygon pts }
  | .polygonF pts => .ok { st1 with boundary_shape := pts }
  | .invalid => .error (st1, "TypeError")

theorem set_boundary_shape_invalid_disables_auto (st : HeatmapBoundaryState) :
    set_boundary_shape st .invalid =
      .error ({ st with auto_boundary := false }, "TypeError") ∧
    ({ st with auto_boundary := false } : HeatmapBoundaryState).auto_boundary
      = false ∧
    ({ st with auto_boundary := false } : HeatmapBoundaryState).boundary_shape
      = st.boundary_shape :=
  ⟨rfl, rfl, rfl⟩

/-- Modelled from the spec: HeatmapLayer.set_color_range is absent from this
revision of the sources (only the tests and the demo call it).  Spec sections 3
and 7: the color range is an explicit (min, max) pair or auto (None, None); an
explicit range requires min < max strictly, and min >= max is rejected eagerly
at the configuration boundary with a validation error, before any render. -/
def set_color_range (st : Option (ℚ × ℚ)) (mn mx : Option ℚ) :
    Except String (Option (ℚ × ℚ)) :=
  match mn, mx with
  | some a, some b => if a < b then .ok (some (a, b)) else .error "ValueError"
  | none, none => .ok none
  | _, _ => .error "ValueError"

theorem set_color_range_rejects_degenerate (st : Option (ℚ × ℚ)) (a b : ℚ) :
    (b ≤ a → set_color_range st (some a) (some b) = .error "ValueError") ∧
    (a < b → set_color_range st (some a) (some b) = .ok (some (a, b))) ∧
    set_color_range st (some 5) (some 5) = .error "ValueError" := by
  refine ⟨?_, ?_, ?_⟩
  · intro h
    simp [set_color_range, not_lt.mpr h]
  · intro h
    simp [set_color_range, h]
  · simp [set_color_range, lt_irrefl (5 : ℚ)]

theorem set_color_range_rejects_degenerate_witness :
    (5 : ℚ) ≤ 5 ∧ set_color_range none (some 5) (some 5) = .error "ValueError" :=
  ⟨le_refl 5, (set_color_range_rejects_degenerate none 5 5).1 (le_refl 5)⟩

/-- Geometry fingerprint used as the cache key (spec section 3): grid
resolution, content hash of the point coordinate array, boundary signature. -/
abbrev CacheKey : Type := ℕ × ℕ × ℕ

/-- Modelled from the spec: fieldview/utils/grid_manager.py is absent from the
sources (only tests/test_grid_manager.py imports it).  Spec section 4.3
describes InterpolatorCache: an LRU cache from the geometry fingerprint to the
fitted FastRBFInterpolator plus BoundaryPointGenerator pair, holding at most
max_size entries.  The fitted pair is represented by its object identity (a
fresh natural number per fit) so that reference equality is observable; entries
are kept most-recent first and the counter supplies fresh identities. -/
structure InterpolatorCache where
  entries : List (CacheKey × ℕ)
  counter : ℕ
  max_size : ℕ

/-- Lookup that also removes the found entry, leaving the remaining list in
order: the recency-ordered list minus the accessed entry. -/
def extractEntry (k : CacheKey) : List (CacheKey × ℕ) → Option (ℕ × List (CacheKey × ℕ))
  | [] => none
  | e :: rest =>
    if e.1 = k then some (e.2, rest)
    else
      match extractEntry k rest with
      | some (v, l) => some (v, e :: l)
      | none => none

/-- Modelled from the spec: InterpolatorCache.get_interpolator.  A hit moves
the entry to the front (most recent) and returns the stored pair identity; a
miss fits a fresh pair, inserts it in front, and truncates to max_size entries,
evicting the least recently used entry (the last of the recency order). -/
def get_interpolator (c : InterpolatorCache) (k : CacheKey) :
    ℕ × InterpolatorCache :=
  match extractEntry k c.entries with
  | some (v, rest) => (v, { c with entries := (k, v) :: rest })
  | none =>
      (c.counter,
       { entries := ((k, c.counter) :: c.entries).take c.max_size,
         counter := c.counter + 1,
         max_size := c.max_size })

/-- Entries carry pairwise distinct keys and pairwise distinct identities. -/
def entriesDistinct (es : List (CacheKey × ℕ)) : Prop :=
  es.Pairwise (fun a b => a.1 ≠ b.1 ∧ a.2 ≠ b.2)

/-- Cache invariant: stored identities are below the counter, entries are
distinct in key and identity, and the capacity bound holds. -/
def CacheWF (c : InterpolatorCache) : Prop :=
  (∀ e ∈ c.entries, e.2 < c.counter) ∧ entriesDistinct c.entries ∧
    c.entries.length ≤ c.max_size

theorem extractEntry_spec (k : CacheKey) :
    ∀ es : List (CacheKey × ℕ),
    (∀ v rest, extractEntry k es = some (v, rest) →
      (k, v) ∈ es ∧ rest.Sublist es ∧ rest.length + 1 = es.length) ∧
    (extractEntry k es = none → ∀ e ∈ es, e.1 ≠ k) := by
  intro es
  induction es with
  | nil =>
    constructor
    · intro v rest h
      simp [extractEntry] at h
    · intro _ e he
      simp at he
  | cons a as ih =>
    constructor
    · intro v rest h
      simp only [extractEntry] at h
      by_cases hk : a.1 = k
      · rw [if_pos hk] at h
        obtain ⟨hv, hrest⟩ := Prod.mk.injEq _ _ _ _ ▸ Option.some.injEq _ _ ▸ h
        have hav : (k, v) = a := by
          rw [← hk, ← hv]
        refine ⟨?_, ?_, ?_⟩
        · exact List.mem_cons.mpr (Or.inl hav)
        · rw [← hrest]
          exact List.sublist_cons_self a as
        · rw [← hrest]
          simp
      · rw [if_neg hk] at h
        cases hrec : extractEntry k as with
        | none => rw [hrec] at h; cases h
        | some p =>
          obtain ⟨v0, l⟩ := p
          rw [hrec] at h
          obtain ⟨hv, hrest⟩ := Prod.mk.injEq _ _ _ _ ▸ Option.some.injEq _ _ ▸ h
          obtain ⟨hmem, hsub, hlen⟩ := (ih.1) v0 l hrec
          refine ⟨?_, ?_, ?_⟩
          · right
            rw [← hv]
            exact hmem
          · rw [← hrest]
            exact List.Sublist.cons₂ a hsub
          · rw [← hrest]
            simp only [List.length_cons]
            omega
    · intro h e he
      simp only [extractEntry] at h
      by_cases hk : a.1 = k
      · rw [if_pos hk] at h
        cases h
      · rw [if_neg hk] at h
        rcases List.mem_cons.mp he with he1 | he1
        · rw [he1]; exact hk
        · cases hrec : extractEntry k as with
          | some p => obtain ⟨v0, l⟩ := p; rw [hrec] at h; cases h
          | none => exact (ih.2) hrec e he1

theorem extractEntry_distinct (k : CacheKey) :
    ∀ (es : List (CacheKey × ℕ)) (v : ℕ) (rest : List (CacheKey × ℕ)),
    entriesDistinct es → extractEntry k es = some (v, rest) →
    entriesDistinct rest ∧ ∀ b ∈ rest, k ≠ b.1 ∧ v ≠ b.2 := by
  intro es
  induction es with
  | nil =>
    intro v rest _ h
    simp [extractEntry] at h
  | cons a as ih =>
    intro v rest hd h
    obtain ⟨ha, has⟩ := List.pairwise_cons.mp hd
    simp only [extractEntry] at h
    by_cases hk : a.1 = k
    · rw [if_pos hk] at h
      obtain ⟨hv, hrest⟩ := Prod.mk.injEq _ _ _ _ ▸ Option.some.injEq _ _ ▸ h
      subst hrest
      refine ⟨has, ?_⟩
      intro b hb
      obtain ⟨h1, h2⟩ := ha b hb
      exact ⟨hk ▸ h1, hv ▸ h2⟩
    · rw [if_neg hk] at h
      cases hrec : extractEntry k as with
      | none => rw [hrec] at h; cases h
      | some p =>
        obtain ⟨v0, l⟩ := p
        rw [hrec] at h
        obtain ⟨hv, hrest⟩ := Prod.mk.injEq _ _ _ _ ▸ Option.some.injEq _ _ ▸ h
        obtain ⟨hdl, hbl⟩ := ih v0 l has hrec
        obtain ⟨hmem, hsub, _⟩ := ((extractEntry_spec k as).1) v0 l hrec
        subst hrest
        constructor
        · exact List.pairwise_cons.mpr ⟨fun b hb => ha b (hsub.mem hb), hdl⟩
        · intro b hb
          rcases List.mem_cons.mp hb with hb | hb
          · subst hb
            obtain ⟨h1, h2⟩ := ha (k, v0) hmem
            exact ⟨Ne.symm h1, hv ▸ Ne.symm h2⟩
          · exact hv ▸ hbl b hb

theorem interpolator_cache_lru_contract (c : InterpolatorCache) (k k2 : CacheKey)
    (hwf : CacheWF c) (hmax : 1 ≤ c.max_size) (hne : k2 ≠ k) :
    (get_interpolator (get_interpolator c k).2 k).1 = (get_interpolator c k).1 ∧
    (get_interpolator (get_interpolator c k).2 k2).1 ≠ (get_interpolator c k).1 ∧
    (get_interpolator c k).2.entries.length ≤ c.max_size ∧
    (extractEntry k c.entries = none → c.entries.length = c.max_size →
      (get_interpolator c k).2.entries = (k, c.counter) :: c.entries.dropLast) := by
  obtain ⟨hbound, hdist, hlen⟩ := hwf
  have hkk2 : k ≠ k2 := fun h => hne h.symm
  cases hx : extractEntry k c.entries with
  | some p =>
    obtain ⟨v, rest⟩ := p
    obtain ⟨hmem, hsub, hlen1⟩ := ((extractEntry_spec k c.entries).1) v rest hx
    obtain ⟨hdrest, hdhead⟩ := extractEntry_distinct k c.entries v rest hdist hx
    have hget : get_interpolator c k =
        (v, { c with entries := (k, v) :: rest }) := by
      rw [get_interpolator, hx]
    rw [hget]
    have hhead : extractEntry k ((k, v) :: rest) = some (v, rest) := by
      simp [extractEntry]
    refine ⟨?_, ?_, ?_, ?_⟩
    · rw [get_interpolator]
      simp only [hhead]
    · rw [get_interpolator]
      simp only [extractEntry, if_neg (show (k, v).1 ≠ k2 from hkk2)]
      cases hy : extractEntry k2 rest with
      | some q =>
        obtain ⟨v2, l⟩ := q
        obtain ⟨hmem2, _, _⟩ := ((extractEntry_spec k2 rest).1) v2 l hy
        simp only [hy]
        exact Ne.symm ((hdhead (k2, v2) hmem2).2)
      | none =>
        have hvlt : v < c.counter := hbound (k, v) hmem
        simp only [hy]
        omega
    · simp only [List.length_cons]
      omega
    · intro hnone
      cases hnone
  | none =>
    obtain ⟨m, hm⟩ : ∃ m, c.max_size = m + 1 := ⟨c.max_size - 1, by omega⟩
    have hget : get_interpolator c k =
        (c.counter,
         { entries := ((k, c.counter) :: c.entries).take c.max_size,
           counter := c.counter + 1, max_size := c.max_size }) := by
      rw [get_interpolator, hx]
    have htake : ((k, c.counter) :: c.entries).take c.max_size =
        (k, c.counter) :: c.entries.take m := by
      rw [hm, List.take_succ_cons]
    rw [hget]
    have hhead : extractEntry k ((k, c.counter) :: c.entries.take m) =
        some (c.counter, c.entries.take m) := by
      simp [extractEntry]
    refine ⟨?_, ?_, ?_, ?_⟩
    · rw [get_interpolator]
      simp only [htake, hhead]
    · rw [get_interpolator]
      simp only [htake]
      simp only [extractEntry, if_neg (show (k, c.counter).1 ≠ k2 from hkk2)]
      cases hy : extractEntry k2 (c.entries.take m) with
      | some q =>
        obtain ⟨v2, l⟩ := q
        obtain ⟨hmem2, _, _⟩ := ((extractEntry_spec k2 (c.entries.take m)).1) v2 l hy
        have hmem2' : (k2, v2) ∈ c.entries := (List.take_sublist m c.entries).mem hmem2
        have hvlt : v2 < c.counter := hbound (k2, v2) hmem2'
        simp only [hy]
        omega
      | none =>
        simp only [hy]
        omega
    · rw [htake]
      simp only [List.length_cons]
      have := List.length_take_le m c.entries
      omega
    · intro _ hfull
      have hm' : c.entries.take m = c.entries.dropLast := by
        rw [List.dropLast_eq_take]
        congr 1
        omega
      simp only [htake, hm']

theorem interpolator_cache_lru_contract_witness :
    CacheWF ⟨[], 0, 2⟩ ∧ 1 ≤ (2 : ℕ) ∧
    ((get_interpolator (get_interpolator ⟨[], 0, 2⟩ (10, 7, 3)).2 (10, 7, 3)).1 =
        (get_interpolator ⟨[], 0, 2⟩ (10, 7, 3)).1 ∧
      (get_interpolator (get_interpolator ⟨[], 0, 2⟩ (10, 7, 3)).2 (20, 7, 3)).1 ≠
        (get_interpolator ⟨[], 0, 2⟩ (10, 7, 3)).1 ∧
      (get_interpolator ⟨[], 0, 2⟩ (10, 7, 3)).2.entries.length ≤ 2 ∧
      (extractEntry (10, 7, 3) ([] : List (CacheKey × ℕ)) = none →
        ([] : List (CacheKey × ℕ)).length = 2 →
        (get_interpolator ⟨[], 0, 2⟩ (10, 7, 3)).2.entries =
          ((10, 7, 3), 0) :: ([] : List (CacheKey × ℕ)).dropLast)) :=
  ⟨⟨by simp, by simp [entriesDistinct], by simp⟩, by omega,
   interpolator_cache_lru_contract ⟨[], 0, 2⟩ (10, 7, 3) (20, 7, 3)
     ⟨by simp, by simp [entriesDistinct], by simp⟩ (by decide) (by decide)⟩

end FieldView
